import Mathlib

/-!
Verification development for the retdec control-flow decoder
(`src/bin2llvmir/optimizations/decoder/decoder.cpp`) and the stack
reconstruction pass (`src/bin2llvmir/optimizations/stack/stack.cpp`).
The C++ is shallowly embedded: pure fragments become Lean functions,
stateful fragments become explicit state passing, and the few data types
that live outside the two source files (`Address`, `AddressRange`,
`SymbolicTree`, …) are modelled from the specification, as noted on each
definition.
-/

set_option autoImplicit false

namespace RetdecSpec

/-- Modelled from the spec: `Address` (§3) is a possibly-undefined unsigned
integer denoting a byte in the target image; `none` is the undefined
address (`Address()` / `Address::getUndef` in the C++). -/
abbrev Address := Option Nat

/-! ## LLVM values as consumed by `Decoder::getJumpTarget` -/

/-- LLVM IR values as far as `Decoder::getJumpTarget` inspects them: either a
`llvm::ConstantInt` of a given bit width carrying an unsigned payload (the
machine integer is the payload reduced `% 2 ^ width`), or any other value. -/
inductive LValue where
  | constInt (width : Nat) (payload : Nat)
  | otherVal (id : Nat)
deriving DecidableEq

/-- Zero-extended value of a constant integer, `llvm::ConstantInt::getZExtValue`:
the width-truncated unsigned payload. Undefined for non-constants. -/
def LValue.zextValue : LValue → Option Nat
  | .constInt w payload => some (payload % 2 ^ w)
  | .otherVal _ => none

/-- Translated from `Decoder::getJumpTarget` (decoder.cpp:519-526): if the
value is a `ConstantInt`, return its zero-extended value as the target
address; otherwise return the undefined address. -/
def Decoder.getJumpTarget (val : LValue) : Address :=
  match val with
  | .constInt w payload => some (payload % 2 ^ w)
  | .otherVal _ => none

/-! ## Allowed ranges and the range consumed by one decoded jump target -/

/-- Modelled from the spec: `AddressRange` (§3) is a half-open interval
`[start, end)` on defined addresses. The `end` bound is named `endAddr`. -/
structure AddressRange where
  start : Nat
  endAddr : Nat
deriving DecidableEq

/-- Modelled from the spec: membership of an address in a half-open range. -/
def AddressRange.containsAddr (r : AddressRange) (a : Nat) : Bool :=
  r.start ≤ a && a < r.endAddr

/-- Translated from `Decoder::decodeJumpTarget` (decoder.cpp:274-275): the
range the driver removes from `_allowedRanges` on exit is
`AddressRange(start, end)` with `end = addr > start ? addr - 1 : start`. -/
def Decoder.decodedRange (start addr : Nat) : AddressRange :=
  { start := start, endAddr := if start < addr then addr - 1 else start }

/-- Modelled from the spec: `RangeSet.remove` (§4.1) punches the given range
out of the set. The range set is modelled extensionally by its membership
predicate; removal is pointwise. -/
def removeRange (allowed : Nat → Bool) (r : AddressRange) : Nat → Bool :=
  fun a => allowed a && !(r.containsAddr a)

/-! ## `Decoder::run` outcome -/

/-- Outcome of a driver entry point: either the C++ function returns a
boolean, or the process is terminated via `exit(code)`. -/
inductive RunOutcome where
  | returned (changed : Bool)
  | exited (code : Nat)
deriving DecidableEq

/-- Translated from `Decoder::run` (decoder.cpp:80-109): with no config or no
image the driver returns `false`; otherwise it initializes, drains the
jump-target worklist (`decode()`, whose module mutations do not feed back
into the returned value), then unconditionally executes
`dumpModuleToFile(_module); dumpControFlowToJson(); exit(1);`, so the
trailing `return false` is unreachable. -/
def Decoder.run (hasConfig hasImage : Bool) : RunOutcome :=
  if !hasConfig || !hasImage then .returned false
  else .exited 1

/-! ## Functions, basic blocks and the address indices -/

/-- One emitted IR instruction; `addr` is the address recorded for it in the
IR-to-asm mapping (`AsmInstruction::getInstructionAddress`), if any. The
`id` field is opaque payload standing for everything else in the
instruction. -/
structure Insn where
  id : Nat
  addr : Address
deriving DecidableEq

/-- One basic block: identity, name, instructions, and the ids of its CFG
successor blocks (`succ_begin`/`succ_end`). -/
structure Bb where
  id : Nat
  name : String
  insns : List Insn
  succs : List Nat
deriving DecidableEq

/-- One IR function: identity, name and its ordered list of basic blocks. -/
structure Fnc where
  id : Nat
  name : String
  blocks : List Bb
deriving DecidableEq

/-- The decoder's inverse address maps `_fnc2addr` and `_bb2addr`, keyed by
function/block identity. -/
structure DecoderIndex where
  fnc2addr : Nat → Address
  bb2addr : Nat → Address

/-- Translated from `Decoder::getFunctionAddress` (decoder.cpp:537-541):
look the function up in `_fnc2addr`; undefined if absent. -/
def Decoder.getFunctionAddress (ix : DecoderIndex) (f : Fnc) : Address :=
  ix.fnc2addr f.id

/-- Translated from `Decoder::getBasicBlockAddress` (decoder.cpp:675-679):
look the block up in `_bb2addr`; undefined if absent. -/
def Decoder.getBasicBlockAddress (ix : DecoderIndex) (b : Bb) : Address :=
  ix.bb2addr b.id

/-- Marker for a dereference of a null pointer in the embedded C++. -/
inductive NullDeref where
  | nullDeref
deriving DecidableEq

/-- Body of `Decoder::getFunctionEndAddress` for a non-null function
(decoder.cpp:553-558): if the function has no block, or its last block has
no instruction, fall back to the function's start address; otherwise the
address of the last instruction of the last block. -/
def Decoder.getFunctionEndAddressCore (ix : DecoderIndex) (f : Fnc) : Address :=
  match f.blocks.getLast? with
  | none => Decoder.getFunctionAddress ix f
  | some b =>
    match b.insns.getLast? with
    | none => Decoder.getFunctionAddress ix f
    | some i => i.addr

/-- Translated from `Decoder::getFunctionEndAddress` (decoder.cpp:546-559).
The null check reads `if (f == nullptr) { Address(); }`: it constructs a
temporary `Address` and discards it without returning, so control falls
through to `f->empty()`, which dereferences the null pointer; the model
reports that path as an error value. -/
def Decoder.getFunctionEndAddress (ix : DecoderIndex) (f : Option Fnc) :
    Except NullDeref Address :=
  match f with
  | none => .error .nullDeref
  | some f => .ok (Decoder.getFunctionEndAddressCore ix f)

/-- Body of `Decoder::getBasicBlockEndAddress` for a non-null block
(decoder.cpp:691-696): an empty block falls back to the block's start
address; otherwise the address of its last instruction. -/
def Decoder.getBasicBlockEndAddressCore (ix : DecoderIndex) (b : Bb) : Address :=
  match b.insns.getLast? with
  | none => Decoder.getBasicBlockAddress ix b
  | some i => i.addr

/-- Translated from `Decoder::getBasicBlockEndAddress` (decoder.cpp:684-697).
As in `getFunctionEndAddress`, the null check constructs and discards
`Address()` without returning, and the subsequent `b->empty()`
dereferences the null pointer. -/
def Decoder.getBasicBlockEndAddress (ix : DecoderIndex) (b : Option Bb) :
    Except NullDeref Address :=
  match b with
  | none => .error .nullDeref
  | some b => .ok (Decoder.getBasicBlockEndAddressCore ix b)

/-! ## `CF_CALL_TARGET` recovery outside the allowed ranges -/

/-- Lower-case hexadecimal rendering of an address,
`retdec::utils::Address::toHexString` (outside src/; the spec fixes
lower-case hex, §6). -/
def toHexString (n : Nat) : String :=
  String.mk (Nat.toDigits 16 n)

/-- Hexadecimal rendering with a `0x` prefix,
`retdec::utils::Address::toHexPrefixString` (outside src/; spec §6). -/
def toHexPrefixString (n : Nat) : String :=
  "0x" ++ toHexString n

/-- Decoder state as touched by the `CF_CALL_TARGET` recovery path: the four
address/identity maps, function names, the set of addresses at which an
asm instruction already exists (`AsmInstruction(_module, a)` validity), a
fresh-id counter for objects created by `splitFunctionOn`, and the list of
`setTargetFunction` patches recorded on the pseudo-call worklist. -/
structure DecRecovState where
  nextId : Nat
  addr2fnc : Nat → Option Nat
  fnc2addr : Nat → Option Nat
  addr2bb : Nat → Option Nat
  bb2addr : Nat → Option Nat
  fncName : Nat → String
  hasInstr : Nat → Bool
  patches : List (Nat × Nat)

/-- How a popped jump target leaves `decodeJumpTarget`: an early `return`
after a successful patch, the `found no range -> skipped` fall-through, or
an `assert(false)` (fatal). -/
inductive JtOutcome where
  | ret
  | skipped
  | fatal
deriving DecidableEq

/-- Translated from the `CONTROL_FLOW_CALL_TARGET` branch of
`Decoder::decodeJumpTarget` when the address lies in no allowed range
(decoder.cpp:201-230). If a function is indexed exactly at the address,
`setTargetFunction` patches the pseudo-call and the branch returns. Else,
if an asm instruction exists at the address, `splitFunctionOn` makes a new
function named `function_<hex-addr>` whose entry block is the split point
(both indexed at the address) — and control falls through to the
`skipped` log without patching the pseudo-call. Else `assert(false)`.
`fromCall` is the pseudo-call instruction `jt.fromInst`. -/
def Decoder.callTargetRecovery (st : DecRecovState) (a : Nat) (fromCall : Nat) :
    DecRecovState × JtOutcome :=
  match st.addr2fnc a with
  | some f => ({ st with patches := st.patches ++ [(fromCall, f)] }, .ret)
  | none =>
    if st.hasInstr a then
      let newFnc := st.nextId
      let newBb := st.nextId + 1
      ({ st with
          nextId := st.nextId + 2
          fncName := fun i => if i = newFnc then "function_" ++ toHexString a else st.fncName i
          addr2fnc := fun x => if x = a then some newFnc else st.addr2fnc x
          fnc2addr := fun i => if i = newFnc then some a else st.fnc2addr i
          addr2bb := fun x => if x = a then some newBb else st.addr2bb x
          bb2addr := fun i => if i = newBb then some a else st.bb2addr i },
        .skipped)
    else
      (st, .fatal)

/-! ## The address-to-function index invariant across decoding -/

/-- Pointwise update of a map modelled as a function. -/
def upd {β : Type} (m : Nat → Option β) (k : Nat) (v : Option β) : Nat → Option β :=
  fun x => if x = k then v else m x

theorem upd_same {β : Type} (m : Nat → Option β) (k : Nat) (v : Option β) :
    upd m k v k = v := by
  simp [upd]

theorem upd_other {β : Type} (m : Nat → Option β) (k : Nat) (v : Option β)
    (x : Nat) (h : x ≠ k) : upd m k v x = m x := by
  simp [upd, h]

/-- Decoder state as consulted by the index invariant: the address maps, their
inverses, and each function's ordered block list (the LLVM function body;
`none` for identities no function uses yet). -/
structure CfgIndexState where
  addr2fnc : Nat → Option Nat
  fnc2addr : Nat → Option Nat
  addr2bb : Nat → Option Nat
  bb2addr : Nat → Option Nat
  fncBlocks : Nat → Option (List Nat)

/-- Insert `newB` right after the first occurrence of `b0`; if `b0` is absent,
append at the end. This is how `llvm::BasicBlock::Create(ctx, n, f, next)`
places a block when `next` is `insertAfter->getNextNode()`
(decoder.cpp:765-771): before `next` when it exists, at the end of the
function otherwise. -/
def insertAfterBlock : List Nat → Nat → Nat → List Nat
  | [], _, newB => [newB]
  | b :: bs, b0, newB =>
    if b = b0 then b :: newB :: bs else b :: insertAfterBlock bs b0 newB

/-- Effect of `Decoder::createFunction` (decoder.cpp:616-664) on the index
state: a fresh function `f` gets a single fresh entry block `b` (via
`createBasicBlock(a, "", f)`, which appends to the empty body), and both
are indexed at `a` in all four maps. -/
def createFunctionUpd (st : CfgIndexState) (a f b : Nat) : CfgIndexState :=
  { addr2fnc := upd st.addr2fnc a (some f)
    fnc2addr := upd st.fnc2addr f (some a)
    addr2bb := upd st.addr2bb a (some b)
    bb2addr := upd st.bb2addr b (some a)
    fncBlocks := upd st.fncBlocks f (some [b]) }

/-- Effect of the `splitFunctionOn` branch of `decodeJumpTarget`
(decoder.cpp:210-221) on the index state. `splitFunctionOn` itself lives
outside src/; Modelled from the spec (§4.3 recovery, §8 scenario 4): the
enclosing function `g` with body `pre ++ suf` is split at an instruction
strictly inside it, the suffix becomes the body of the new function `f'`
behind a fresh entry block `b'`, and decoder.cpp:216-220 then indexes both
`f'` and `b'` at the split address `a`. -/
def splitFunctionUpd (st : CfgIndexState) (a g f' b' : Nat)
    (pre suf : List Nat) : CfgIndexState :=
  { addr2fnc := upd st.addr2fnc a (some f')
    fnc2addr := upd st.fnc2addr f' (some a)
    addr2bb := upd st.addr2bb a (some b')
    bb2addr := upd st.bb2addr b' (some a)
    fncBlocks := fun i =>
      if i = f' then some (b' :: suf)
      else if i = g then some pre
      else st.fncBlocks i }

/-- Effect of `Decoder::createBasicBlock` on an existing function
(decoder.cpp:757-780, called with a non-null `insertAfter` at
decoder.cpp:296-300 and 331-335), and likewise of the
`AsmInstruction::makeStart` block split (decoder.cpp:176-179, the new
block start appearing right after the block holding the split
instruction): a fresh block `bNew` is placed after block `after` in `g`'s
body and indexed at `a`. -/
def addBasicBlockUpd (st : CfgIndexState) (a g bNew after : Nat)
    (bs : List Nat) : CfgIndexState :=
  { addr2fnc := st.addr2fnc
    fnc2addr := st.fnc2addr
    addr2bb := upd st.addr2bb a (some bNew)
    bb2addr := upd st.bb2addr bNew (some a)
    fncBlocks := upd st.fncBlocks g (some (insertAfterBlock bs after bNew)) }

/-- One decoding step that touches the function/block indices, with the
guards the source establishes on each path: `createFunction` asserts the
address is unindexed (decoder.cpp:658) and creates fresh LLVM objects;
the split path runs only when `getFunction(jt.address)` was null
(decoder.cpp:203/210) and splits strictly inside `g` (`pre ≠ []`);
`addBasicBlock` inserts a fresh block into an existing function. -/
inductive CfgStep : CfgIndexState → CfgIndexState → Prop where
  | createFunction (st : CfgIndexState) (a f b : Nat)
      (haf : st.addr2fnc a = none)
      (hf : st.fnc2addr f = none)
      (hb : st.bb2addr b = none) :
      CfgStep st (createFunctionUpd st a f b)
  | splitFunction (st : CfgIndexState) (a g f' b' : Nat) (pre suf : List Nat)
      (haf : st.addr2fnc a = none)
      (hg : st.fncBlocks g = some (pre ++ suf))
      (hpre : pre ≠ [])
      (hf : st.fnc2addr f' = none)
      (hb : st.bb2addr b' = none)
      (hgf : g ≠ f') :
      CfgStep st (splitFunctionUpd st a g f' b' pre suf)
  | addBasicBlock (st : CfgIndexState) (a g bNew after : Nat) (bs : List Nat)
      (hg : st.fncBlocks g = some bs)
      (hb : st.bb2addr bNew = none) :
      CfgStep st (addBasicBlockUpd st a g bNew after bs)

/-- The empty index state the decoder starts from. -/
def initCfgState : CfgIndexState :=
  { addr2fnc := fun _ => none
    fnc2addr := fun _ => none
    addr2bb := fun _ => none
    bb2addr := fun _ => none
    fncBlocks := fun _ => none }

/-- States the decoder can reach from the empty indices. -/
def CfgReachable (st : CfgIndexState) : Prop :=
  Relation.ReflTransGen CfgStep initCfgState st

/-- The claimed index invariant: every function indexed at an address `a` is
registered back at `a`, has a nonempty body, and its first block is
indexed at `a` as well. -/
def FncIndexInv (st : CfgIndexState) : Prop :=
  ∀ a f, st.addr2fnc a = some f →
    st.fnc2addr f = some a ∧
    ∃ b bs, st.fncBlocks f = some (b :: bs) ∧ st.bb2addr b = some a

theorem insertAfterBlock_head (b : Nat) (bs : List Nat) (b0 newB : Nat) :
    ∃ tl, insertAfterBlock (b :: bs) b0 newB = b :: tl := by
  by_cases h : b = b0 <;> simp [insertAfterBlock, h]

theorem fncIndexInv_step {st st' : CfgIndexState}
    (hstep : CfgStep st st') (hinv : FncIndexInv st) : FncIndexInv st' := by
  cases hstep with
  | createFunction a f b haf hf hb =>
    intro a0 f0 h0
    by_cases ha : a0 = a
    · subst ha
      simp only [createFunctionUpd, upd_same, Option.some.injEq] at h0
      subst h0
      refine ⟨?_, b, [], ?_, ?_⟩ <;> simp [createFunctionUpd, upd_same]
    · rw [createFunctionUpd] at h0
      simp only at h0
      rw [upd_other _ _ _ _ ha] at h0
      obtain ⟨hfa, b0, bs0, hblocks, hbb⟩ := hinv a0 f0 h0
      have hff : f0 ≠ f := by
        intro he; subst he; rw [hf] at hfa; exact Option.noConfusion hfa
      have hbb0 : b0 ≠ b := by
        intro he; subst he; rw [hb] at hbb; exact Option.noConfusion hbb
      refine ⟨?_, b0, bs0, ?_, ?_⟩
      · simpa [createFunctionUpd, upd_other _ _ _ _ hff] using hfa
      · simpa [createFunctionUpd, upd_other _ _ _ _ hff] using hblocks
      · simpa [createFunctionUpd, upd_other _ _ _ _ hbb0] using hbb
  | splitFunction a g f' b' pre suf haf hg hpre hf hb hgf =>
    intro a0 f0 h0
    by_cases ha : a0 = a
    · subst ha
      simp only [splitFunctionUpd, upd_same, Option.some.injEq] at h0
      subst h0
      refine ⟨?_, b', suf, ?_, ?_⟩
      · simp [splitFunctionUpd, upd_same]
      · simp [splitFunctionUpd]
      · simp [splitFunctionUpd, upd_same]
    · rw [splitFunctionUpd] at h0
      simp only at h0
      rw [upd_other _ _ _ _ ha] at h0
      obtain ⟨hfa, b0, bs0, hblocks, hbb⟩ := hinv a0 f0 h0
      have hff : f0 ≠ f' := by
        intro he; subst he; rw [hf] at hfa; exact Option.noConfusion hfa
      have hbb0 : b0 ≠ b' := by
        intro he; subst he; rw [hb] at hbb; exact Option.noConfusion hbb
      refine ⟨by simpa [splitFunctionUpd, upd_other _ _ _ _ hff] using hfa, ?_⟩
      by_cases hfg : f0 = g
      · subst hfg
        rw [hg] at hblocks
        injection hblocks with he
        cases pre with
        | nil => exact absurd rfl hpre
        | cons p ps =>
          have hbp : b0 = p := by
            have h2 : p :: (ps ++ suf) = b0 :: bs0 := by simpa using he
            exact (List.cons_eq_cons.mp h2).1.symm
          subst hbp
          refine ⟨b0, ps, ?_, ?_⟩
          · simp [splitFunctionUpd, hff]
          · simpa [splitFunctionUpd, upd_other _ _ _ _ hbb0] using hbb
      · refine ⟨b0, bs0, ?_, ?_⟩
        · simpa [splitFunctionUpd, hff, hfg] using hblocks
        · simpa [splitFunctionUpd, upd_other _ _ _ _ hbb0] using hbb
  | addBasicBlock a g bNew after bs hg hb =>
    intro a0 f0 h0
    rw [addBasicBlockUpd] at h0
    simp only at h0
    obtain ⟨hfa, b0, bs0, hblocks, hbb⟩ := hinv a0 f0 h0
    have hbb0 : b0 ≠ bNew := by
      intro he; subst he; rw [hb] at hbb; exact Option.noConfusion hbb
    refine ⟨hfa, ?_⟩
    by_cases hfg : f0 = g
    · subst hfg
      rw [hg] at hblocks
      injection hblocks with he
      subst he
      obtain ⟨tl, htl⟩ := insertAfterBlock_head b0 bs0 after bNew
      refine ⟨b0, tl, ?_, ?_⟩
      · simp [addBasicBlockUpd, upd_same, htl]
      · simpa [addBasicBlockUpd, upd_other _ _ _ _ hbb0] using hbb
    · refine ⟨b0, bs0, ?_, ?_⟩
      · simpa [addBasicBlockUpd, upd_other _ _ _ _ hfg] using hblocks
      · simpa [addBasicBlockUpd, upd_other _ _ _ _ hbb0] using hbb

/-! ## Decoder claim theorems -/

/-- C6: `Decoder::getJumpTarget` returns a defined address exactly when the
argument is a constant integer; the returned address is the constant's
zero-extended value, and every other value yields the undefined address. -/
theorem c6_getJumpTarget_constInt (v : LValue) :
    ((Decoder.getJumpTarget v).isSome ↔ ∃ w k, v = LValue.constInt w k)
    ∧ Decoder.getJumpTarget v = v.zextValue := by
  constructor
  · constructor
    · intro h
      cases v with
      | constInt w k => exact ⟨w, k, rfl⟩
      | otherVal n => simp [Decoder.getJumpTarget] at h
    · rintro ⟨w, k, rfl⟩
      simp [Decoder.getJumpTarget]
  · cases v <;> rfl

/-- C3: evaluating the range-removal tail of `decodeJumpTarget` at a decode
that started at `0x1000` and left the cursor at `0x1004` (one 4-byte
instruction): the removed range misses the lifted address `0x1003`, which
stays in the allowed set after removal, although `0x1003 ∈ [0x1000,
0x1004)`; and a single-byte decode (cursor at `0x1001`) removes nothing at
all. The claimed removed range is `[start, addr)`; the code removes
`[start, addr − 1)`. -/
theorem c3_removed_range_off_by_one :
    (Decoder.decodedRange 4096 4100).containsAddr 4099 = false
    ∧ removeRange (fun a => decide (4096 ≤ a ∧ a < 8192))
        (Decoder.decodedRange 4096 4100) 4099 = true
    ∧ (4096 ≤ 4099 ∧ 4099 < 4100)
    ∧ (Decoder.decodedRange 4096 4097).containsAddr 4096 = false := by
  decide

/-- C4: with a config and an image available, `Decoder::run` terminates the
process via `exit(1)` after draining the worklist; it does not return a
boolean describing whether the module changed. -/
theorem c4_run_exits_process :
    Decoder.run true true = RunOutcome.exited 1 := by
  rfl

/-- C5: called on a null function or a null basic block, the two end-address
accessors fall through their no-op null checks and dereference the null
pointer instead of returning the undefined address. -/
theorem c5_end_address_null_deref (ix : DecoderIndex) :
    Decoder.getFunctionEndAddress ix none = Except.error NullDeref.nullDeref
    ∧ Decoder.getBasicBlockEndAddress ix none = Except.error NullDeref.nullDeref :=
  ⟨rfl, rfl⟩

/-- Concrete recovery state: no function indexed anywhere, an asm instruction
already decoded at `0x1000`, an empty pseudo-call patch list. -/
def c2State : DecRecovState :=
  { nextId := 100
    addr2fnc := fun _ => none
    fnc2addr := fun _ => none
    addr2bb := fun _ => none
    bb2addr := fun _ => none
    fncName := fun _ => ""
    hasInstr := fun a => a == 4096
    patches := [] }

/-- C2 (counterexample): popping a `CF_CALL_TARGET` at `0x1000` outside the
allowed ranges, with no function indexed there but an instruction present,
does split (the new function is indexed at `0x1000`) — but the pseudo-call
patch list is left empty, contradicting the claim that the pseudo-call is
patched to the new function. -/
theorem c2_split_does_not_patch :
    c2State.addr2fnc 4096 = none
    ∧ c2State.hasInstr 4096 = true
    ∧ (Decoder.callTargetRecovery c2State 4096 7).1.addr2fnc 4096 = some 100
    ∧ (Decoder.callTargetRecovery c2State 4096 7).1.fncName 100 = "function_1000"
    ∧ (Decoder.callTargetRecovery c2State 4096 7).1.patches = [] := by
  refine ⟨rfl, rfl, ?_, ?_, rfl⟩ <;> rfl

/-- C2 (amended): `CF_CALL_TARGET` recovery patches the pseudo-call when a
function is indexed exactly at the address; when only an instruction
exists there, it splits the enclosing function into a new function named
`function_<hex-addr>`, indexes the new function and its entry block at the
address, but leaves the pseudo-call unpatched; otherwise it is fatal. -/
theorem c2_call_target_recovery_amended (st : DecRecovState) (a c : Nat) :
    (∀ f, st.addr2fnc a = some f →
      Decoder.callTargetRecovery st a c
        = ({ st with patches := st.patches ++ [(c, f)] }, JtOutcome.ret))
    ∧ (st.addr2fnc a = none → st.hasInstr a = true →
      ((Decoder.callTargetRecovery st a c).1.addr2fnc a = some st.nextId
        ∧ (Decoder.callTargetRecovery st a c).1.fnc2addr st.nextId = some a
        ∧ (Decoder.callTargetRecovery st a c).1.addr2bb a = some (st.nextId + 1)
        ∧ (Decoder.callTargetRecovery st a c).1.bb2addr (st.nextId + 1) = some a
        ∧ (Decoder.callTargetRecovery st a c).1.fncName st.nextId
            = "function_" ++ toHexString a
        ∧ (Decoder.callTargetRecovery st a c).1.patches = st.patches
        ∧ (Decoder.callTargetRecovery st a c).2 = JtOutcome.skipped))
    ∧ (st.addr2fnc a = none → st.hasInstr a = false →
      Decoder.callTargetRecovery st a c = (st, JtOutcome.fatal)) := by
  refine ⟨?_, ?_, ?_⟩
  · intro f hf
    simp [Decoder.callTargetRecovery, hf]
  · intro h1 h2
    simp [Decoder.callTargetRecovery, h1, h2]
  · intro h1 h2
    simp [Decoder.callTargetRecovery, h1, h2]

/-- Witness for the amended C2 theorem at the concrete recovery state: the
split path runs and the patch list is left exactly as it was (empty). -/
theorem c2_call_target_recovery_amended_witness :
    (Decoder.callTargetRecovery c2State 4096 7).1.patches = []
    ∧ (Decoder.callTargetRecovery c2State 4096 7).2 = JtOutcome.skipped :=
  ⟨((c2_call_target_recovery_amended c2State 4096 7).2.1 rfl rfl).2.2.2.2.2.1,
   ((c2_call_target_recovery_amended c2State 4096 7).2.1 rfl rfl).2.2.2.2.2.2⟩

/-- C7: in every decoder state reachable from the empty indices, each function
indexed at an address has a nonempty body whose first block is indexed at
that same address (and the inverse map agrees). -/
theorem c7_fnc_index_invariant (st : CfgIndexState) (h : CfgReachable st) :
    FncIndexInv st := by
  induction h with
  | refl =>
    intro a f h0
    simp [initCfgState] at h0
  | tail _ hstep ih =>
    exact fncIndexInv_step hstep ih

/-- Concrete reachable state: the entry-point function created at `0x1000`. -/
def c7WitnessState : CfgIndexState :=
  createFunctionUpd initCfgState 4096 0 0

/-- Witness for C7 at the state reached by one `createFunction` step. -/
theorem c7_fnc_index_invariant_witness :
    c7WitnessState.fnc2addr 0 = some 4096
    ∧ ∃ b bs, c7WitnessState.fncBlocks 0 = some (b :: bs)
        ∧ c7WitnessState.bb2addr b = some 4096 :=
  c7_fnc_index_invariant c7WitnessState
    (Relation.ReflTransGen.single
      (CfgStep.createFunction initCfgState 4096 0 0 rfl rfl rfl))
    4096 0 rfl

/-! ## Stack pass: types, values and symbolic trees -/

/-- LLVM types as far as the stack pass inspects them. `opaqueTy` stands for
types the model does not track further (`Value::getType` on operands the
pass only forwards). -/
inductive LTy where
  | intTy (w : Nat)
  | aggregateTy (n : Nat)
  | ptrTy (elem : LTy)
  | opaqueTy (n : Nat)
deriving DecidableEq

/-- The `llvm::Type::isAggregateType` test used by Phase D. -/
def LTy.isAggregate : LTy → Bool
  | .aggregateTy _ => true
  | _ => false

/-- Binary operators the symbolic-tree simplifier folds. -/
inductive BinOp where
  | add
  | sub
  | mul
deriving DecidableEq

/-- LLVM values as the stack pass sees them: constant integers (signed value,
`getSExtValue`), register globals, other globals, binary operations,
cast-like passthrough operations, loads (with their pointer operand, for
the debug-variable pattern match), opaque instruction results, interned
stack slots (`AllocaInst`, identified within a function by offset), values
produced by `convertValueToType`, and the fresh load Phase D creates. -/
inductive SVal where
  | constInt (k : Int)
  | reg (r : Nat)
  | globalVar (g : Nat)
  | binop (op : BinOp) (id : Nat)
  | castop (id : Nat)
  | load (id : Nat) (ptrOp : SVal)
  | instrRes (id : Nat)
  | allocaRef (offset : Int)
  | convTo (t : LTy) (v : SVal)
  | freshLoadOf (offset : Int)
deriving DecidableEq

/-- Stack-pass configuration: which global is the stack pointer and which
globals are registers (`Config::isStackPointerRegister`,
`Config::isRegister`). -/
structure SConfig where
  spReg : Nat
  regs : List Nat
deriving DecidableEq

/-- The `Config::isStackPointerRegister` test. -/
def SVal.isSP (cfg : SConfig) : SVal → Bool
  | .reg r => r == cfg.spReg
  | _ => false

/-- The `Config::isRegister` test. -/
def SVal.isRegisterIn (cfg : SConfig) : SVal → Bool
  | .reg r => cfg.regs.contains r
  | _ => false

/-- The `isa<GlobalVariable>` test on pointer operands (registers are global
variables in the lifted IR). -/
def SVal.isGlobalVariable : SVal → Bool
  | .reg _ => true
  | .globalVar _ => true
  | _ => false

mutual

/-- Modelled from the spec: `SymbolicTree` (§3, §4.6; `symbolic_tree.cpp` is
outside src/): a node holds an IR value, child trees for its expanded
operands, and the flag recording whether construction consulted the
caller's substitution map (the flag is consulted on the root). -/
inductive STree where
  | node (value : SVal) (ops : STreeList) (val2valUsed : Bool)

/-- Children of a symbolic-tree node, as a dedicated list type so that
recursion over the nested tree stays primitive. -/
inductive STreeList where
  | nil
  | cons (t : STree) (ts : STreeList)

end

/-- Root value of a symbolic tree. -/
def STree.value : STree → SVal
  | .node v _ _ => v

/-- Child trees of a symbolic tree node. -/
def STree.ops : STree → STreeList
  | .node _ o _ => o

/-- Whether tree construction consulted the substitution map
(`SymbolicTree::isVal2ValMapUsed`). -/
def STree.val2valUsed : STree → Bool
  | .node _ _ u => u

mutual

/-- Number of nodes of a tree (termination measure for traversals). -/
def STree.size : STree → Nat
  | .node _ ops _ => 1 + STreeList.size ops

/-- Total number of nodes of a list of child trees. -/
def STreeList.size : STreeList → Nat
  | .nil => 0
  | .cons t ts => STree.size t + STreeList.size ts

end

/-- Conversion of a child list to an ordinary list. -/
def STreeList.toList : STreeList → List STree
  | .nil => []
  | .cons t ts => t :: STreeList.toList ts

/-- Sum of the sizes of the trees in a worklist; the termination measure of
the level-order traversal. -/
def treeListSize : List STree → Nat
  | [] => 0
  | t :: ts => STree.size t + treeListSize ts

theorem treeListSize_append (l₁ l₂ : List STree) :
    treeListSize (l₁ ++ l₂) = treeListSize l₁ + treeListSize l₂ := by
  induction l₁ with
  | nil => simp [treeListSize]
  | cons t ts ih => simp [treeListSize, ih]; omega

theorem treeListSize_toList : (l : STreeList) →
    treeListSize l.toList = STreeList.size l
  | .nil => by simp [treeListSize, STreeList.toList, STreeList.size]
  | .cons t ts => by
    have ih := treeListSize_toList ts
    simp [treeListSize, STreeList.toList, STreeList.size, ih]

theorem size_ops_lt (t : STree) : STreeList.size t.ops < STree.size t := by
  cases t with
  | node v ops u => simp [STree.ops, STree.size]

/-- Breadth-first worklist traversal, yielding the trees' nodes in level
order (`SymbolicTree::getLevelOrder`, outside src/; finite by the spec's
finite-tree invariant, §3). -/
def levelOrderAux : List STree → List STree
  | [] => []
  | t :: rest => t :: levelOrderAux (rest ++ t.ops.toList)
termination_by q => treeListSize q
decreasing_by
  simp only [treeListSize, treeListSize_append, treeListSize_toList]
  have h := size_ops_lt t
  omega

/-- All nodes of a tree, in level order. The stack pass consults this both
for the level-order debug-pattern scan and for the stack-pointer scan
(`getPostOrder` in the source; for the latter only membership matters). -/
def STree.allNodes (t : STree) : List STree :=
  levelOrderAux [t]

mutual

/-- Modelled from the spec: `SymbolicTree::simplifyNode` (§4.6, outside
src/), as one bottom-up pass: children are simplified first; then
all-constant `add`/`sub`/`mul` nodes fold, the identities `x + 0`,
`0 + x`, `x − 0`, `x * 1`, `1 * x` collapse, and single-child cast
passthroughs are replaced by their child. -/
def simplifyNode : STree → STree
  | .node v ops u =>
    let ops' := simplifyList ops
    match v, ops' with
    | .binop .add i, .cons a (.cons b .nil) =>
      match a.value, b.value with
      | .constInt k1, .constInt k2 => .node (.constInt (k1 + k2)) .nil u
      | _, .constInt 0 => a
      | .constInt 0, _ => b
      | _, _ => .node (.binop .add i) (.cons a (.cons b .nil)) u
    | .binop .sub i, .cons a (.cons b .nil) =>
      match a.value, b.value with
      | .constInt k1, .constInt k2 => .node (.constInt (k1 - k2)) .nil u
      | _, .constInt 0 => a
      | _, _ => .node (.binop .sub i) (.cons a (.cons b .nil)) u
    | .binop .mul i, .cons a (.cons b .nil) =>
      match a.value, b.value with
      | .constInt k1, .constInt k2 => .node (.constInt (k1 * k2)) .nil u
      | _, .constInt 1 => a
      | .constInt 1, _ => b
      | _, _ => .node (.binop .mul i) (.cons a (.cons b .nil)) u
    | .castop _, .cons a .nil => a
    | _, _ => .node v ops' u

/-- Pointwise simplification of a list of child trees. -/
def simplifyList : STreeList → STreeList
  | .nil => .nil
  | .cons t ts => .cons (simplifyNode t) (simplifyList ts)

end

/-! ## Stack pass: debug variables, slots and instructions -/

/-- A debug-info local variable (`retdec::config::Object` with stack
storage). -/
structure DebugVar where
  name : String
  ty : LTy
  isStack : Bool
  stackOffset : Int
deriving DecidableEq

/-- Debug information for one function (`_dbgf->getFunction(...)`): its local
variables. -/
structure DebugFnc where
  locals : List DebugVar
deriving DecidableEq

/-- Helper for the level-order scan of
`StackAnalysis::getDebugStackVariable` (stack.cpp:340-356): find the first
`Add` node with exactly two operands whose first child is a load and whose
second is a constant; the C++ `break`s at the first structural match
whether or not the load's pointer is a register, so a non-register match
ends the scan empty-handed. -/
def findBaseOffset (cfg : SConfig) : List STree → Option Int
  | [] => none
  | n :: rest =>
    match n.value, n.ops with
    | .binop .add _, .cons op0 (.cons op1 .nil) =>
      match op0.value, op1.value with
      | .load _ p, .constInt k =>
        if SVal.isRegisterIn cfg p then some k else none
      | _, _ => findBaseOffset cfg rest
    | _, _ => findBaseOffset cfg rest

/-- Translated from `StackAnalysis::getDebugStackVariable`
(stack.cpp:319-376). The `_dbgf->getFunction(_config->getFunctionAddress
(fnc))` lookup is curried away: `dbgf` is already the debug record of the
analyzed function, if any. The base offset is the root when it is a
constant, else the constant of the first `Add(load reg, const)` node in
level order; the result is the first stack-stored local at that offset. -/
def StackAnalysis.getDebugStackVariable (cfg : SConfig) (dbgf : Option DebugFnc)
    (root : STree) : Option DebugVar :=
  match dbgf with
  | none => none
  | some dfnc =>
    let baseOffset : Option Int :=
      match root.value with
      | .constInt k => some k
      | _ => findBaseOffset cfg root.allNodes
    match baseOffset with
    | none => none
    | some off => dfnc.locals.find? (fun v => v.isStack && v.stackOffset == off)

/-- A per-function stack slot (`AllocaInst`), identified within its function
by offset; `ty` is the allocated type. -/
structure StackVar where
  offset : Int
  ty : LTy
  name : String
deriving DecidableEq

/-- Modelled from the spec: `IrModifier::getStackVariable` (outside src/)
interns one slot per `(function, offset)` (§3 "Stack slot": first writer
wins; an existing slot is returned unchanged, otherwise a slot with the
requested type and name is created). Returns the slot and the updated
interning table. -/
def getStackVariable (slots : List StackVar) (offset : Int) (t : LTy)
    (name : String) : StackVar × List StackVar :=
  match slots.find? (fun s => s.offset == offset) with
  | some s => (s, slots)
  | none =>
    let s : StackVar := { offset := offset, ty := t, name := name }
    (s, slots ++ [s])

/-- Instructions as the stack pass dispatches on them: stores (value operand
and its type, pointer operand and its pointee type, and whether the store
is an IR-to-asm anchor, `AsmInstruction::isLlvmToAsmInstruction`), loads
(pointer operand, pointee type, result type), and everything else. -/
inductive Inst where
  | store (id : Nat) (valOp : SVal) (valTy : LTy) (ptrOp : SVal)
      (ptrElemTy : LTy) (anchor : Bool)
  | load (id : Nat) (ptrOp : SVal) (ptrElemTy : LTy) (resTy : LTy)
  | otherInst (id : Nat)
deriving DecidableEq

/-- Identity of an instruction. -/
def Inst.id : Inst → Nat
  | .store i _ _ _ _ _ => i
  | .load i _ _ _ => i
  | .otherInst i => i

/-- The deferred rewrite `ReplaceItem { inst, from, to }` (stack.h): apply
`from → to` on `inst` after the function is fully analyzed. -/
structure ReplaceItem where
  inst : Inst
  fromVal : SVal
  toVar : StackVar
deriving DecidableEq

/-- The type of `ReplaceItem::from` (`ri.from->getType()`), recovered from
the operand position the pass put it in. -/
def ReplaceItem.fromTy (ri : ReplaceItem) : LTy :=
  match ri.inst with
  | .store _ vOp vTy pOp pTy _ =>
    if pOp = ri.fromVal then LTy.ptrTy pTy
    else if vOp = ri.fromVal then vTy
    else LTy.opaqueTy 0
  | .load _ pOp pTy _ =>
    if pOp = ri.fromVal then LTy.ptrTy pTy else LTy.opaqueTy 0
  | .otherInst _ => LTy.opaqueTy 0

/-! ## Stack pass: `handleInstruction` and the two analysis phases -/

/-- State threaded through one function's analysis: the deferred rewrite
list, the per-function substitution map `val2val` (store instruction id to
constant), and the function's interned stack slots. -/
structure HandleState where
  replaceItems : List ReplaceItem
  val2val : Nat → Option Int
  slots : List StackVar

/-- Empty per-function analysis state. -/
def initHandleState : HandleState :=
  { replaceItems := [], val2val := fun _ => none, slots := [] }

/-- Oracle standing for `SymbolicTree root(RDA, val, &val2val)`: tree
construction expands operands through reaching definitions
(`symbolic_tree.cpp` and the RDA are outside src/), so the model takes the
built tree as a function of the root value and the current substitution
map. -/
abbrev TreeBuilder := SVal → (Nat → Option Int) → STree

/-- Translated from `StackAnalysis::handleInstruction` (stack.cpp:226-313):
build the symbolic tree over `val`; if the substitution map was not used
and no node is the stack-pointer register, give up. Otherwise look for a
debug variable, simplify, retry the debug lookup, and require the root to
be a constant integer `ci`. If the handled instruction is a store whose
value operand is `val`, record `inst → ci` in the substitution map. Then
intern the stack slot for offset `ci` (typed and named from the debug
variable when present, else from `type`) and defer a
`ReplaceItem {inst, val, slot}`. -/
def StackAnalysis.handleInstruction (cfg : SConfig) (dbgf : Option DebugFnc)
    (TB : TreeBuilder) (inst : Inst) (val : SVal) (type : LTy)
    (st : HandleState) : Bool × HandleState :=
  let root := TB val st.val2val
  if !root.val2valUsed
      && !((STree.allNodes root).any (fun n => SVal.isSP cfg n.value)) then
    (false, st)
  else
    let debugSv := StackAnalysis.getDebugStackVariable cfg dbgf root
    let root := simplifyNode root
    let debugSv :=
      match debugSv with
      | none => StackAnalysis.getDebugStackVariable cfg dbgf root
      | some d => some d
    match root.value with
    | .constInt k =>
      let val2val' :=
        match inst with
        | .store sid vOp _ _ _ _ =>
          if vOp = val then (fun i => if i = sid then some k else st.val2val i)
          else st.val2val
        | _ => st.val2val
      let name := match debugSv with | some d => d.name | none => ""
      let t := match debugSv with | some d => d.ty | none => type
      let p := getStackVariable st.slots k t name
      (true,
        { replaceItems := st.replaceItems ++ [⟨inst, val, p.1⟩]
          val2val := val2val'
          slots := p.2 })
    | _ => (false, st)

/-! ## Stack pass: Phase D, the deferred rewrites -/

/-- One primitive IR mutation performed by Phase D, in program order:
re-pointing an operand, inserting a fresh store/load before an
instruction, replacing all uses of an old load, a local
`replaceUsesOfWith`, or erasing an instruction. -/
inductive IrEffect where
  | setPtrOperand (inst : Nat) (newPtr : SVal)
  | emitStore (value : SVal) (slotOffset : Int) (before : Nat)
  | emitLoad (slotOffset : Int) (before : Nat)
  | rauwLoad (oldLoad : Nat) (newVal : SVal)
  | replaceUsesOfWith (inst : Nat) (oldVal : SVal) (newVal : SVal)
  | eraseInst (inst : Nat)
deriving DecidableEq

/-- Insertion into the `toErase` set (`std::set<Instruction*>` semantics:
duplicates collapse). -/
def insertErase (s : List Nat) (i : Nat) : List Nat :=
  if s.contains i then s else s ++ [i]

/-- Translated from Phase D of `StackAnalysis::runOnFunction`
(stack.cpp:163-217): walk the deferred list; a store whose pointer operand
is `from` either gets its pointer re-pointed through a coercion of the
slot (aggregate slot), or — in the scalar branch — the value operand is
coerced to the slot's element type and `new StoreInst(conv, ri.to,
ri.inst)` together with `toErase.insert(s)` is executed twice (the literal
statement sequence of stack.cpp:184-191); a load is handled symmetrically
with a single fresh load; anything else coerces the slot to `from`'s type
and replaces the use. Returns the mutation trace and the erase set. -/
def StackAnalysis.applyReplaceItemsLoop (items : List ReplaceItem) :
    List IrEffect × List Nat :=
  items.foldl
    (fun acc ri =>
      match ri.inst with
      | .store sid vOp _vTy pOp pTy _anchor =>
        if pOp = ri.fromVal then
          if ri.toVar.ty.isAggregate then
            (acc.1 ++ [.setPtrOperand sid
                (SVal.convTo (LTy.ptrTy pTy) (SVal.allocaRef ri.toVar.offset))],
             acc.2)
          else
            let conv := SVal.convTo ri.toVar.ty vOp
            (acc.1 ++ [.emitStore conv ri.toVar.offset sid,
                       .emitStore conv ri.toVar.offset sid],
             insertErase (insertErase acc.2 sid) sid)
        else
          (acc.1 ++ [.replaceUsesOfWith sid ri.fromVal
              (SVal.convTo ri.fromTy (SVal.allocaRef ri.toVar.offset))],
           acc.2)
      | .load lid pOp pTy rTy =>
        if pOp = ri.fromVal then
          if ri.toVar.ty.isAggregate then
            (acc.1 ++ [.setPtrOperand lid
                (SVal.convTo (LTy.ptrTy pTy) (SVal.allocaRef ri.toVar.offset))],
             acc.2)
          else
            (acc.1 ++ [.emitLoad ri.toVar.offset lid,
                       .rauwLoad lid
                         (SVal.convTo rTy (SVal.freshLoadOf ri.toVar.offset))],
             insertErase acc.2 lid)
        else
          (acc.1 ++ [.replaceUsesOfWith lid ri.fromVal
              (SVal.convTo ri.fromTy (SVal.allocaRef ri.toVar.offset))],
           acc.2)
      | .otherInst oid =>
        (acc.1 ++ [.replaceUsesOfWith oid ri.fromVal
            (SVal.convTo ri.fromTy (SVal.allocaRef ri.toVar.offset))],
         acc.2))
    ([], [])

/-- Phase D including the final erase pass (stack.cpp:218-221): the mutation
trace of the rewrite loop followed by one erase per `toErase` element. -/
def StackAnalysis.applyReplaceItems (items : List ReplaceItem) :
    List IrEffect :=
  let p := StackAnalysis.applyReplaceItemsLoop items
  p.1 ++ p.2.map IrEffect.eraseInst

/-! ## Stack pass: `runOnFunction` and `run` -/

/-- One analyzed function: name and flat instruction stream (the
basic-block / instruction double loop of the source visits instructions in
exactly this order). -/
structure SFunction where
  name : String
  insts : List Inst
deriving DecidableEq

/-- An analyzed module: its functions, in order. -/
structure SModule where
  functions : List SFunction
deriving DecidableEq

/-- Translated from `StackAnalysis::runOnFunction` (stack.cpp:82-224):
Phase A feeds every non-anchor store's value operand to
`handleInstruction`, discarding the returned flag (as the source does at
stack.cpp:103-110); Phase B feeds loads and stores via their pointer
operands, skipping `i1` pointees, global-variable pointers and anchor
stores, accumulating `changed`; Phase D then applies the deferred
rewrites. Returns `changed` and the function's mutation trace. -/
def StackAnalysis.runOnFunction (cfg : SConfig) (dbgf : Option DebugFnc)
    (TB : TreeBuilder) (f : SFunction) : Bool × List IrEffect :=
  let stA := f.insts.foldl
    (fun st i =>
      match i with
      | .store _ vOp vTy _ _ anchor =>
        if anchor then st
        else (StackAnalysis.handleInstruction cfg dbgf TB i vOp vTy st).2
      | _ => st)
    initHandleState
  let r := f.insts.foldl
    (fun acc i =>
      match i with
      | .load _ pOp pTy rTy =>
        if pTy = LTy.intTy 1 then acc
        else if pOp.isGlobalVariable then acc
        else
          let r := StackAnalysis.handleInstruction cfg dbgf TB i pOp rTy acc.2
          (acc.1 || r.1, r.2)
      | .store _ _ vTy pOp pTy anchor =>
        if anchor then acc
        else if pTy = LTy.intTy 1 then acc
        else if pOp.isGlobalVariable then acc
        else
          let r := StackAnalysis.handleInstruction cfg dbgf TB i pOp vTy acc.2
          (acc.1 || r.1, r.2)
      | _ => acc)
    (false, stA)
  (r.1, StackAnalysis.applyReplaceItems r.2.replaceItems)

/-- Observable result of `StackAnalysis::run`: the returned flag, whether the
ReachingDefinitionsAnalysis was constructed, which functions were
visited, and the IR mutation trace (empty trace = module unchanged). -/
structure StackRunResult where
  changed : Bool
  rdaBuilt : Bool
  visited : List String
  effects : List IrEffect
deriving DecidableEq

/-- Translated from `StackAnalysis::run` (stack.cpp:62-80): without a config
the pass returns `false` at once — no RDA is constructed, no function
visited, nothing mutated. Otherwise the RDA is built and every function
of the module is visited in order, or-ing the per-function results.
`dbgf` supplies per-function debug info by function name. -/
def StackAnalysis.run (cfg : Option SConfig) (dbgf : String → Option DebugFnc)
    (TB : TreeBuilder) (m : SModule) : StackRunResult :=
  match cfg with
  | none => { changed := false, rdaBuilt := false, visited := [], effects := [] }
  | some c =>
    m.functions.foldl
      (fun acc f =>
        let r := StackAnalysis.runOnFunction c (dbgf f.name) TB f
        { changed := acc.changed || r.1
          rdaBuilt := acc.rdaBuilt
          visited := acc.visited ++ [f.name]
          effects := acc.effects ++ r.2 })
      { changed := false, rdaBuilt := true, visited := [], effects := [] }

/-! ## Stack pass claim theorems -/

/-- Scalar `i32` stack slot at offset 8. -/
def c1Slot : StackVar :=
  { offset := 8, ty := LTy.intTy 32, name := "" }

/-- A store whose pointer operand will be rewritten to the slot. -/
def c1Store : Inst :=
  Inst.store 1 (SVal.instrRes 5) (LTy.intTy 32) (SVal.instrRes 6)
    (LTy.intTy 32) false

/-- The deferred rewrite for that store: `from` is its pointer operand, `to`
the scalar slot. -/
def c1Item : ReplaceItem :=
  { inst := c1Store, fromVal := SVal.instrRes 6, toVar := c1Slot }

/-- C1: applying Phase D to a deferred store rewrite with a non-aggregate
slot emits the coerced fresh store TWICE (stack.cpp:188 and 190 are the
same `new StoreInst(conv, ri.to, ri.inst)` statement repeated) and erases
the original store once — not the single replacement store the claim (and
spec §9) require. -/
theorem c1_scalar_store_emitted_twice :
    StackAnalysis.applyReplaceItems [c1Item]
      = [IrEffect.emitStore (SVal.convTo (LTy.intTy 32) (SVal.instrRes 5)) 8 1,
         IrEffect.emitStore (SVal.convTo (LTy.intTy 32) (SVal.instrRes 5)) 8 1,
         IrEffect.eraseInst 1]
    ∧ (StackAnalysis.applyReplaceItems [c1Item]).countP
        (fun e => match e with | IrEffect.emitStore _ _ _ => true | _ => false)
        = 2 := by
  refine ⟨rfl, rfl⟩

/-- Config for the stack-pass examples: register 10 is the stack pointer. -/
def c8Cfg : SConfig :=
  { spReg := 10, regs := [10] }

/-- Tree builder for a literal constant root: per §4.6 a constant is a leaf,
and building a leaf for a constant consults no substitution map. -/
def c8TB : TreeBuilder :=
  fun v _ => STree.node v STreeList.nil false

/-- A non-anchor store of the constant 3 (value operand) to a non-global
pointer. -/
def c8Inst : Inst :=
  Inst.store 1 (SVal.constInt 3) (LTy.intTy 32) (SVal.instrRes 2)
    (LTy.intTy 32) false

/-- C8 (counterexample): the symbolic tree over the store's value operand is
the constant 3 and simplifies to the constant 3, yet `handleInstruction`
returns at the stack-pointer gate (stack.cpp:240-256) before stack.cpp:278
can record anything: the substitution map stays empty, contradicting the
claim that every constant-valued store is recorded. -/
theorem c8_constant_store_not_recorded :
    (simplifyNode (c8TB (SVal.constInt 3) initHandleState.val2val)).value
      = SVal.constInt 3
    ∧ (StackAnalysis.handleInstruction c8Cfg none c8TB c8Inst
        (SVal.constInt 3) (LTy.intTy 32) initHandleState).1 = false
    ∧ (StackAnalysis.handleInstruction c8Cfg none c8TB c8Inst
        (SVal.constInt 3) (LTy.intTy 32) initHandleState).2.val2val 1 = none := by
  refine ⟨rfl, ?_, ?_⟩
  · simp [StackAnalysis.handleInstruction, c8TB, c8Cfg, c8Inst,
      STree.allNodes, levelOrderAux, STree.ops, STreeList.toList,
      STree.val2valUsed, STree.value, SVal.isSP]
  · simp [StackAnalysis.handleInstruction, c8TB, c8Cfg, c8Inst,
      STree.allNodes, levelOrderAux, STree.ops, STreeList.toList,
      STree.val2valUsed, STree.value, SVal.isSP, initHandleState]

/-- C8 (amended): for a store handed to Phase A (value operand as `val`),
if the built tree consulted the substitution map or contains the
stack-pointer register, and its simplification is the constant `k`, then
the resulting substitution map records `store ↦ k`. -/
theorem c8_phaseA_records_constant (cfg : SConfig) (dbgf : Option DebugFnc)
    (TB : TreeBuilder) (sid : Nat) (vOp : SVal) (vTy : LTy) (pOp : SVal)
    (pTy : LTy) (anchor : Bool) (st : HandleState) (k : Int)
    (hgate : (TB vOp st.val2val).val2valUsed = true
      ∨ (STree.allNodes (TB vOp st.val2val)).any
          (fun n => SVal.isSP cfg n.value) = true)
    (hconst : (simplifyNode (TB vOp st.val2val)).value = SVal.constInt k) :
    (StackAnalysis.handleInstruction cfg dbgf TB
        (Inst.store sid vOp vTy pOp pTy anchor) vOp vTy st).2.val2val sid
      = some k := by
  have hg : (!(TB vOp st.val2val).val2valUsed
      && !((STree.allNodes (TB vOp st.val2val)).any
            (fun n => SVal.isSP cfg n.value))) = false := by
    rcases hgate with h | h <;> simp [h]
  simp only [StackAnalysis.handleInstruction, hg, Bool.false_eq_true, if_false]
  rw [hconst]
  simp

/-- Tree builder whose result records that the substitution map was
consulted during expansion. -/
def c8wTB : TreeBuilder :=
  fun v _ => STree.node v STreeList.nil true

/-- Witness for the amended C8 theorem: a Phase A store of the constant 5
whose tree consulted the substitution map gets `1 ↦ 5` recorded. -/
theorem c8_phaseA_records_constant_witness :
    (StackAnalysis.handleInstruction c8Cfg none c8wTB
        (Inst.store 1 (SVal.constInt 5) (LTy.intTy 32) (SVal.instrRes 2)
          (LTy.intTy 32) false)
        (SVal.constInt 5) (LTy.intTy 32) initHandleState).2.val2val 1
      = some 5 :=
  c8_phaseA_records_constant c8Cfg none c8wTB 1 (SVal.constInt 5)
    (LTy.intTy 32) (SVal.instrRes 2) (LTy.intTy 32) false initHandleState 5
    (Or.inl rfl)
    rfl

/-- C10: with no configuration available, `StackAnalysis::run` returns
`false` without building the reaching-definitions analysis, visits no
function, and leaves the module untouched (empty mutation trace). -/
theorem c10_run_without_config (dbgf : String → Option DebugFnc)
    (TB : TreeBuilder) (m : SModule) :
    StackAnalysis.run none dbgf TB m
      = { changed := false, rdaBuilt := false, visited := [], effects := [] } :=
  rfl

/-! ## The JSON control-flow dump -/

/-- One emitted block object of the JSON schema (§6): address, end address,
successor addresses. -/
structure JsonBb where
  address : String
  addressEnd : String
  succs : List String
deriving DecidableEq

/-- One emitted function object of the JSON schema (§6): address, end
address, blocks (`code_refs` is always the empty array). -/
structure JsonFnc where
  address : String
  addressEnd : String
  bbs : List JsonBb
deriving DecidableEq

/-- JSON string literal. -/
def renderStr (s : String) : String :=
  "\"" ++ s ++ "\""

/-- JSON array from already-rendered elements. -/
def renderArr (xs : List String) : String :=
  "[" ++ String.intercalate "," xs ++ "]"

/-- Serialization of one block object. -/
def renderJsonBb (b : JsonBb) : String :=
  "\x7b\"address\":" ++ renderStr b.address
    ++ ",\"address_end\":" ++ renderStr b.addressEnd
    ++ ",\"succs\":" ++ renderArr (b.succs.map renderStr) ++ "\x7d"

/-- Serialization of one function object, with its constant `code_refs`. -/
def renderJsonFnc (f : JsonFnc) : String :=
  "\x7b\"address\":" ++ renderStr f.address
    ++ ",\"address_end\":" ++ renderStr f.addressEnd
    ++ ",\"bbs\":" ++ renderArr (f.bbs.map renderJsonBb)
    ++ ",\"code_refs\":[]\x7d"

/-- Deterministic serialization of the whole dump (standing for the
`Json::StreamWriter` configured at decoder.cpp:856-863, which is likewise
a pure function of the document tree). -/
def renderControlFlow (fs : List JsonFnc) : String :=
  renderArr (fs.map renderJsonFnc)

/-- Option-valued traversal: all results, or `none` as soon as one element
fails (the dump uses it to propagate an `assert` failure). -/
def mapOption {α β : Type} (f : α → Option β) : List α → Option (List β)
  | [] => some []
  | x :: xs =>
    match f x, mapOption f xs with
    | some y, some ys => some (y :: ys)
    | _, _ => none

/-- Position of the block with the given identity in a function's block list
(the C++ holds the successor as a pointer; the model recovers its position
to walk `getPrevNode` from it). -/
def findBlockIdx (blocks : List Bb) (succId : Nat) : Option Nat :=
  match blocks with
  | [] => none
  | b :: bs =>
    if b.id = succId then some 0 else (findBlockIdx bs succId).map (· + 1)

/-- Walk backwards (the list is the reversed prefix ending at the successor)
to the nearest block carrying an address (decoder.cpp:836-842); `none`
models the `assert(succ)` failure when no predecessor carries one. -/
def firstAddrBackwards (ix : DecoderIndex) : List Bb → Option Nat
  | [] => none
  | b :: rest =>
    match Decoder.getBasicBlockAddress ix b with
    | some a => some a
    | none => firstAddrBackwards ix rest

/-- Resolution of one successor edge to a printed address
(decoder.cpp:830-843): start from the successor block and walk
`getPrevNode` until a block with an address is found. -/
def resolveSucc (ix : DecoderIndex) (f : Fnc) (succId : Nat) : Option String :=
  match findBlockIdx f.blocks succId with
  | none => none
  | some i =>
    (firstAddrBackwards ix ((f.blocks.take (i + 1)).reverse)).map
      toHexPrefixString

/-- Translated from the block loop of `Decoder::dumpControFlowToJson`
(decoder.cpp:812-848): blocks without a start or end address are skipped
(`some none`); otherwise the block object is emitted; a failed successor
resolution (`assert`) aborts the dump (`none`). -/
def dumpBb (ix : DecoderIndex) (f : Fnc) (bb : Bb) : Option (Option JsonBb) :=
  match Decoder.getBasicBlockAddress ix bb,
        Decoder.getBasicBlockEndAddressCore ix bb with
  | some s, some e =>
    match mapOption (resolveSucc ix f) bb.succs with
    | none => none
    | some succs =>
      some (some { address := toHexPrefixString s
                   addressEnd := toHexPrefixString e
                   succs := succs })
  | _, _ => some none

/-- Translated from the function loop of `Decoder::dumpControFlowToJson`
(decoder.cpp:796-854): functions without a start or end address are
skipped; otherwise the function object collects its non-skipped blocks. -/
def dumpFnc (ix : DecoderIndex) (f : Fnc) : Option (Option JsonFnc) :=
  match Decoder.getFunctionAddress ix f, Decoder.getFunctionEndAddressCore ix f with
  | some s, some e =>
    match mapOption (dumpBb ix f) f.blocks with
    | none => none
    | some obbs =>
      some (some { address := toHexPrefixString s
                   addressEnd := toHexPrefixString e
                   bbs := obbs.reduceOption })
  | _, _ => some none

/-- Translated from `Decoder::dumpControFlowToJson` (decoder.cpp:793-864),
producing the serialized JSON instead of writing `control-flow.json`;
`none` models an `assert` failure during successor resolution. -/
def Decoder.dumpControFlowToJson (ix : DecoderIndex) (fncs : List Fnc) :
    Option String :=
  (mapOption (dumpFnc ix) fncs).map
    (fun l => renderControlFlow l.reduceOption)

/-! ## Dump-relevant module equality -/

/-- Two instructions agree for the dump when they carry the same recorded
address; the rest of the instruction is free. -/
def InsnSame (i₁ i₂ : Insn) : Prop :=
  i₁.addr = i₂.addr

/-- Two blocks agree for the dump: same identity (hence same indexed
address), same instruction-address trace, same successor edges; the name
is free. -/
def BbSame (b₁ b₂ : Bb) : Prop :=
  b₁.id = b₂.id ∧ List.Forall₂ InsnSame b₁.insns b₂.insns ∧ b₁.succs = b₂.succs

/-- Two functions agree for the dump: same identity and pointwise-agreeing
blocks; the name is free. -/
def FncSame (f₁ f₂ : Fnc) : Prop :=
  f₁.id = f₂.id ∧ List.Forall₂ BbSame f₁.blocks f₂.blocks

/-- Two modules agree for the dump: pointwise-agreeing functions. -/
def ModuleSame (m₁ m₂ : List Fnc) : Prop :=
  List.Forall₂ FncSame m₁ m₂

theorem forall₂_getLast? {α β : Type} {r : α → β → Prop} {l₁ : List α}
    {l₂ : List β} (h : List.Forall₂ r l₁ l₂) :
    (l₁.getLast? = none ∧ l₂.getLast? = none)
    ∨ ∃ a b, l₁.getLast? = some a ∧ l₂.getLast? = some b ∧ r a b := by
  induction h with
  | nil => exact Or.inl ⟨rfl, rfl⟩
  | cons hab htl ih =>
    cases htl with
    | nil => exact Or.inr ⟨_, _, rfl, rfl, hab⟩
    | cons hxy htl2 =>
      simpa [List.getLast?_cons_cons] using ih

theorem forall₂_append {α β : Type} {r : α → β → Prop} {l₁ l₁' : List α}
    {l₂ l₂' : List β} (h : List.Forall₂ r l₁ l₂)
    (h' : List.Forall₂ r l₁' l₂') : List.Forall₂ r (l₁ ++ l₁') (l₂ ++ l₂') := by
  induction h with
  | nil => exact h'
  | cons hab htl ih => exact List.Forall₂.cons hab ih

theorem forall₂_reverse {α β : Type} {r : α → β → Prop} {l₁ : List α}
    {l₂ : List β} (h : List.Forall₂ r l₁ l₂) :
    List.Forall₂ r l₁.reverse l₂.reverse := by
  induction h with
  | nil => exact List.Forall₂.nil
  | cons hab htl ih =>
    simpa [List.reverse_cons] using
      forall₂_append ih (List.Forall₂.cons hab List.Forall₂.nil)

theorem forall₂_take {α β : Type} {r : α → β → Prop} {l₁ : List α}
    {l₂ : List β} (h : List.Forall₂ r l₁ l₂) (n : Nat) :
    List.Forall₂ r (l₁.take n) (l₂.take n) := by
  induction h generalizing n with
  | nil => simp
  | cons hab htl ih =>
    cases n with
    | zero => exact List.Forall₂.nil
    | succ n => exact List.Forall₂.cons hab (ih n)

theorem bbAddr_eq (ix : DecoderIndex) {b₁ b₂ : Bb} (h : BbSame b₁ b₂) :
    Decoder.getBasicBlockAddress ix b₁ = Decoder.getBasicBlockAddress ix b₂ := by
  simp [Decoder.getBasicBlockAddress, h.1]

theorem bbEnd_eq (ix : DecoderIndex) {b₁ b₂ : Bb} (h : BbSame b₁ b₂) :
    Decoder.getBasicBlockEndAddressCore ix b₁
      = Decoder.getBasicBlockEndAddressCore ix b₂ := by
  unfold Decoder.getBasicBlockEndAddressCore
  rcases forall₂_getLast? h.2.1 with ⟨h1, h2⟩ | ⟨a, b, h1, h2, hab⟩
  · rw [h1, h2]
    exact bbAddr_eq ix h
  · rw [h1, h2]
    exact hab

theorem fncAddr_eq (ix : DecoderIndex) {f₁ f₂ : Fnc} (h : FncSame f₁ f₂) :
    Decoder.getFunctionAddress ix f₁ = Decoder.getFunctionAddress ix f₂ := by
  simp [Decoder.getFunctionAddress, h.1]

theorem fncEnd_eq (ix : DecoderIndex) {f₁ f₂ : Fnc} (h : FncSame f₁ f₂) :
    Decoder.getFunctionEndAddressCore ix f₁
      = Decoder.getFunctionEndAddressCore ix f₂ := by
  unfold Decoder.getFunctionEndAddressCore
  rcases forall₂_getLast? h.2 with ⟨h1, h2⟩ | ⟨a, b, h1, h2, hab⟩
  · rw [h1, h2]
    exact fncAddr_eq ix h
  · rw [h1, h2]
    rcases forall₂_getLast? hab.2.1 with ⟨g1, g2⟩ | ⟨i, j, g1, g2, hij⟩
    · simp only [g1, g2]
      exact fncAddr_eq ix h
    · simp only [g1, g2]
      exact hij

theorem findBlockIdx_eq {l₁ l₂ : List Bb} (h : List.Forall₂ BbSame l₁ l₂)
    (s : Nat) : findBlockIdx l₁ s = findBlockIdx l₂ s := by
  induction h with
  | nil => rfl
  | cons hab htl ih =>
    unfold findBlockIdx
    rw [hab.1, ih]

theorem firstAddrBackwards_eq (ix : DecoderIndex) {l₁ l₂ : List Bb}
    (h : List.Forall₂ BbSame l₁ l₂) :
    firstAddrBackwards ix l₁ = firstAddrBackwards ix l₂ := by
  induction h with
  | nil => rfl
  | cons hab htl ih =>
    unfold firstAddrBackwards
    rw [bbAddr_eq ix hab, ih]

theorem resolveSucc_eq (ix : DecoderIndex) {f₁ f₂ : Fnc} (h : FncSame f₁ f₂)
    (s : Nat) : resolveSucc ix f₁ s = resolveSucc ix f₂ s := by
  unfold resolveSucc
  rw [findBlockIdx_eq h.2]
  cases findBlockIdx f₂.blocks s with
  | none => rfl
  | some i =>
    simp only
    rw [firstAddrBackwards_eq ix (forall₂_reverse (forall₂_take h.2 (i + 1)))]

theorem mapOption_congr {α β : Type} {f g : α → Option β} (l : List α)
    (h : ∀ x, f x = g x) : mapOption f l = mapOption g l := by
  induction l with
  | nil => rfl
  | cons x xs ih =>
    unfold mapOption
    rw [h x, ih]

theorem mapOption_rel {α α' β : Type} {r : α → α' → Prop} {f : α → Option β}
    {g : α' → Option β} {l₁ : List α} {l₂ : List α'}
    (h : List.Forall₂ r l₁ l₂) (hf : ∀ a b, r a b → f a = g b) :
    mapOption f l₁ = mapOption g l₂ := by
  induction h with
  | nil => rfl
  | cons hab htl ih =>
    unfold mapOption
    rw [hf _ _ hab, ih]

theorem dumpBb_eq (ix : DecoderIndex) {f₁ f₂ : Fnc} (hf : FncSame f₁ f₂)
    {b₁ b₂ : Bb} (hb : BbSame b₁ b₂) : dumpBb ix f₁ b₁ = dumpBb ix f₂ b₂ := by
  unfold dumpBb
  rw [bbAddr_eq ix hb, bbEnd_eq ix hb]
  cases Decoder.getBasicBlockAddress ix b₂ with
  | none => rfl
  | some s =>
    cases Decoder.getBasicBlockEndAddressCore ix b₂ with
    | none => rfl
    | some e =>
      simp only
      rw [hb.2.2, mapOption_congr b₂.succs (resolveSucc_eq ix hf)]

theorem dumpFnc_eq (ix : DecoderIndex) {f₁ f₂ : Fnc} (h : FncSame f₁ f₂) :
    dumpFnc ix f₁ = dumpFnc ix f₂ := by
  unfold dumpFnc
  rw [fncAddr_eq ix h, fncEnd_eq ix h]
  cases Decoder.getFunctionAddress ix f₂ with
  | none => rfl
  | some s =>
    cases Decoder.getFunctionEndAddressCore ix f₂ with
    | none => rfl
    | some e =>
      simp only
      rw [mapOption_rel h.2 (fun a b hab => dumpBb_eq ix h hab)]

/-- C9: the JSON control-flow dump is a pure function of the dump-relevant
module content — two modules with the same functions, blocks, indexed
addresses, instruction-address traces and successor edges (names and
other instruction payload may differ arbitrarily) serialize to
byte-identical JSON. -/
theorem c9_dump_pure_function (ix : DecoderIndex) (m₁ m₂ : List Fnc)
    (h : ModuleSame m₁ m₂) :
    Decoder.dumpControFlowToJson ix m₁ = Decoder.dumpControFlowToJson ix m₂ := by
  unfold Decoder.dumpControFlowToJson
  rw [mapOption_rel h (fun a b hab => dumpFnc_eq ix hab)]

/-- Index for the C9 witness: function 0 and block 0 both live at `0x1000`. -/
def c9Ix : DecoderIndex :=
  { fnc2addr := fun i => if i = 0 then some 4096 else none
    bb2addr := fun i => if i = 0 then some 4096 else none }

/-- Witness module, first variant. -/
def c9M1 : List Fnc :=
  [{ id := 0, name := "function_1000"
     blocks := [{ id := 0, name := "bb_1000"
                  insns := [{ id := 1, addr := some 4098 }]
                  succs := [0] }] }]

/-- Witness module, second variant: same addresses and edges, different
names and instruction payload. -/
def c9M2 : List Fnc :=
  [{ id := 0, name := "entry_point"
     blocks := [{ id := 0, name := "lab0"
                  insns := [{ id := 77, addr := some 4098 }]
                  succs := [0] }] }]

/-- Witness for C9: the two witness modules differ in names and instruction
payload but dump to identical bytes. -/
theorem c9_dump_pure_function_witness :
    Decoder.dumpControFlowToJson c9Ix c9M1
      = Decoder.dumpControFlowToJson c9Ix c9M2 :=
  c9_dump_pure_function c9Ix c9M1 c9M2
    (by simp [ModuleSame, FncSame, BbSame, InsnSame, c9M1, c9M2])

end RetdecSpec
